import Mathlib

/-!
Shallow embedding of the LINE webhook worker (src/index.ts) and proofs of its
specification properties.

Message text is modelled as a list of characters (one entry per UTF-16 code
unit of the original text, which is the platform's offset convention for
mention spans).  JavaScript string slicing, which clamps and normalizes its
integer arguments, is modelled by jsSlice over Int indices.  Network calls
(the OpenAI request and the LINE reply request) are modelled as oracle
functions passed to the corresponding definitions.
-/

/-- JSON values, as produced by a successful JSON.parse. -/
inductive Json where
  | null : Json
  | bool (b : Bool) : Json
  | num (n : Int) : Json
  | str (s : String) : Json
  | arr (elems : List Json) : Json
  | obj (fields : List (String × Json)) : Json
deriving Repr

/-- JavaScript property access o[k] for a string key: defined only on plain
objects; every other value (or a missing key) yields undefined, modelled
as none. -/
def jsGet (j : Json) (k : String) : Option Json :=
  match j with
  | .obj fields => fields.lookup k
  | _ => none

/-- Truthiness of an optional JS string: undefined and the empty string are
falsy, every other string is truthy. -/
def jsTruthy (s : Option String) : Bool :=
  match s with
  | none => false
  | some v => v ≠ ""

/-- Model of String.prototype.slice(start, stop): negative arguments count
from the end of the string and the normalized bounds are clamped to
[0, length]. -/
def jsSlice (s : List Char) (start stop : Int) : List Char :=
  let len : Int := (s.length : Int)
  let st : Int := if start < 0 then max (len + start) 0 else min start len
  let en : Int := if stop < 0 then max (len + stop) 0 else min stop len
  (s.take en.toNat).drop st.toNat

/-- Model of the one-argument String.prototype.slice(start). -/
def jsSliceFrom (s : List Char) (start : Int) : List Char :=
  jsSlice s start (s.length : Int)

/-- Model of String.prototype.slice on the String wrapper type. -/
def jsStrSlice (s : String) (start stop : Int) : String :=
  ⟨jsSlice s.data start stop⟩

/-- Model of String.prototype.trim on a character list. -/
def jsTrim (s : List Char) : List Char :=
  ((s.dropWhile Char.isWhitespace).reverse.dropWhile Char.isWhitespace).reverse

/-- Model of String.prototype.trim on the String wrapper type. -/
def jsStrTrim (s : String) : String :=
  ⟨jsTrim s.data⟩

/-- Model of String.prototype.toLowerCase. -/
def jsStrLower (s : String) : String :=
  ⟨s.data.map Char.toLower⟩

/-- A mention entry of a LINE text message: a half-open span
[index, index+length) over the text plus the mentioned user.  The field
mtype models the optional "type" field of the source. -/
structure Mentionee where
  index : Int
  length : Int
  userId : Option String
  mtype : Option String
deriving DecidableEq, Repr

/-- The mention object of a LINE text message. -/
structure Mention where
  mentionees : List Mentionee
deriving DecidableEq, Repr

/-- A LINE text message. -/
structure LineTextMessage where
  id : String
  text : List Char
  mention : Option Mention
deriving DecidableEq, Repr

/-- The message field of a LINE event: either a text message or some other
message shape (the source checks message.type === "text" and ignores
everything else). -/
inductive LineMessage where
  | text (msg : LineTextMessage) : LineMessage
  | other : LineMessage
deriving DecidableEq, Repr

/-- The source descriptor of a LINE event. -/
structure Source where
  userId : Option String
  groupId : Option String
  roomId : Option String
deriving DecidableEq, Repr

/-- A LINE webhook event. -/
structure LineEvent where
  etype : String
  replyToken : Option String
  source : Source
  timestamp : Int
  mode : String
  webhookEventId : String
  deliveryContext : Option Bool
  message : LineMessage
deriving DecidableEq, Repr

/-- Worker environment bindings. -/
structure Env where
  OPENAI_API_KEY : String
  OPENAI_MODEL : String
  OPENAI_PROMPT : Option String
  OPENAI_VECTOR_STORE_ID : Option String
  ENABLE_DIRECT_CHAT_REPLY : Option String
  LINE_CHANNEL_ACCESS_TOKEN : String
  LINE_CHANNEL_SECRET : String
  LINE_BOT_USER_ID : String
deriving Repr

/-- isDirectChat from the source: Boolean(userId && !groupId && !roomId). -/
def isDirectChat (ev : LineEvent) : Bool :=
  jsTruthy ev.source.userId && !jsTruthy ev.source.groupId && !jsTruthy ev.source.roomId

/-- isDirectChatEnabled from the source: the flag is falsy (absent or empty)
or its trimmed, lower-cased value is compared with the four truthy words. -/
def isDirectChatEnabled (env : Env) : Bool :=
  match env.ENABLE_DIRECT_CHAT_REPLY with
  | none => false
  | some flag =>
    if flag = "" then false
    else
      let normalized := jsStrLower (jsStrTrim flag)
      normalized == "true" || normalized == "1" || normalized == "yes" || normalized == "on"

/-- isBotMentioned from the source: some mention entry's userId strictly
equals the configured bot user id. -/
def isBotMentioned (msg : LineTextMessage) (botUserId : String) : Bool :=
  (match msg.mention with
   | some mention => mention.mentionees
   | none => []).any (fun m => m.userId == some botUserId)

/-- The list of mention entries of a message (empty when no mention object
is present). -/
def mentioneesOf (msg : LineTextMessage) : List Mentionee :=
  match msg.mention with
  | some mention => mention.mentionees
  | none => []

/-- extractQuestion from the source: without a mention object the raw text is
returned; otherwise the mention entries are sorted by descending index
(the comparator (a, b) => b.index - a.index) and each span is removed with
two clamped slices, and the remainder is trimmed. -/
def extractQuestion (msg : LineTextMessage) : List Char :=
  match msg.mention with
  | none => msg.text
  | some mention =>
    let sorted := List.insertionSort (fun a b => b.index ≤ a.index) mention.mentionees
    jsTrim (sorted.foldl
      (fun text m => jsSlice text 0 m.index ++ jsSliceFrom text (m.index + m.length))
      msg.text)

/-- timingSafeEqual from the source: length check, then an OR-accumulation of
the XOR of the code units at each position. -/
def timingSafeEqual (a b : List Char) : Bool :=
  if a.length ≠ b.length then false
  else ((a.zip b).foldl (fun result p => result ||| (p.1.toNat ^^^ p.2.toNat)) 0) == 0

/-- Outcome of an outbound HTTP fetch, as far as the worker observes it:
the ok flag and status of the Response plus the parsed JSON body. -/
structure FetchResp where
  ok : Bool
  status : Nat
  data : Json

/-- Outcome of the LINE reply fetch (its body is never inspected beyond
logging). -/
structure LineResp where
  ok : Bool
  status : Nat

/-- The request body built by queryOpenAI (lines 128-143 of the source):
model fallback, prompt fallback, the user question, the fixed output-token
cap, and the optional file-search tool with its vector store ids. -/
structure OpenAIRequest where
  model : String
  systemPrompt : String
  question : List Char
  maxOutputTokens : Nat
  vectorStoreIds : Option (List String)
deriving DecidableEq, Repr

/-- The default system prompt of the source. -/
def defaultPrompt : String :=
  "始終以正體中文作答。僅根據storage儲存的檔案內容來回答問題。對於任何與「皇普莊園社區」無關的問題，請直接回答「本系統僅回應與皇普莊園社區相關的問題」。"

/-- First nonempty trimmed text in an output item's content array
(the inner loop of extractOpenAIText). -/
def firstContentText (contents : List Json) : Option String :=
  match contents with
  | [] => none
  | c :: rest =>
    match jsGet c "text" with
    | some (.str s) =>
      if jsStrTrim s = "" then firstContentText rest else some (jsStrTrim s)
    | _ => firstContentText rest

/-- Scan of the output array of a Responses-API payload (the outer loop of
extractOpenAIText): items without a content array are skipped. -/
def firstOutputText (items : List Json) : Option String :=
  match items with
  | [] => none
  | item :: rest =>
    match jsGet item "content" with
    | some (.arr contents) =>
      match firstContentText contents with
      | some t => some t
      | none => firstOutputText rest
    | _ => firstOutputText rest

/-- Model of the optional-chaining index access v?.[0]: element 0 of an
array, the field named "0" of an object, undefined otherwise (a string
receiver cannot contribute here since the subsequent .message access on
a one-character string yields undefined anyway). -/
def jsIndexZero (j : Json) : Option Json :=
  match j with
  | .arr elems => elems.head?
  | .obj fields => fields.lookup "0"
  | _ => none

/-- extractOpenAIText from the source: null or a non-object yields null;
otherwise a nonempty trimmed output_text string wins, then the first
nonempty text inside the output array, then choices[0].message.content. -/
def extractOpenAIText (data : Json) : Option String :=
  match data with
  | .obj _ | .arr _ =>
    (match jsGet data "output_text" with
     | some (.str s) => if jsStrTrim s = "" then none else some (jsStrTrim s)
     | _ => none)
    <|>
    (match jsGet data "output" with
     | some (.arr items) => firstOutputText items
     | _ => none)
    <|>
    (match (jsGet data "choices").bind jsIndexZero |>.bind (fun c => jsGet c "message")
        |>.bind (fun m => jsGet m "content") with
     | some (.str s) => if jsStrTrim s = "" then none else some (jsStrTrim s)
     | _ => none)
  | _ => none

/-- queryOpenAI from the source, with the network call supplied as an oracle
from the request body to the fetched response.  A non-ok response or an
empty extracted text is a thrown error; otherwise the text is truncated
with slice(0, 1900). -/
def queryOpenAI (question : List Char) (env : Env) (oai : OpenAIRequest → FetchResp) :
    Except String String :=
  let vectorStoreId := env.OPENAI_VECTOR_STORE_ID.map jsStrTrim
  let prompt :=
    match env.OPENAI_PROMPT.map jsStrTrim with
    | some p => if p = "" then defaultPrompt else p
    | none => defaultPrompt
  let req : OpenAIRequest :=
    { model := if env.OPENAI_MODEL = "" then "gpt-4.1-mini" else env.OPENAI_MODEL
      systemPrompt := prompt
      question := question
      maxOutputTokens := 400
      vectorStoreIds :=
        match vectorStoreId with
        | some v => if v = "" then none else some [v]
        | none => none }
  let response := oai req
  if !response.ok then
    .error ("OpenAI API failed with status " ++ toString response.status)
  else
    match extractOpenAIText response.data with
    | none => .error "OpenAI response is empty"
    | some content =>
      if content = "" then .error "OpenAI response is empty"
      else .ok (jsStrSlice content 0 1900)

/-- replyToLine from the source, with the LINE reply fetch supplied as an
oracle from (replyToken, text) to the response.  A falsy reply token is
a logged no-op; a non-ok response is a thrown error.  The returned value
records the text actually dispatched (none when dispatch was skipped). -/
def replyToLine (ev : LineEvent) (message : String) (env : Env)
    (line : String → String → LineResp) : Except String (Option String) :=
  match ev.replyToken with
  | none => .ok none
  | some token =>
    if token = "" then .ok none
    else
      let response := line token message
      if response.ok then .ok (some message)
      else .error ("LINE reply failed with status " ++ toString response.status)

/-- handleEvent from the source: non-message events and non-text messages
are ignored; then the eligibility guard, the emptiness check on the
extracted question, the answer call and the reply call.  The ok value
records the dispatched text, if any. -/
def handleEvent (ev : LineEvent) (env : Env) (oai : OpenAIRequest → FetchResp)
    (line : String → String → LineResp) : Except String (Option String) :=
  if ev.etype ≠ "message" then .ok none
  else
    match ev.message with
    | .other => .ok none
    | .text msg =>
      if !(isDirectChat ev && isDirectChatEnabled env)
          && !isBotMentioned msg env.LINE_BOT_USER_ID then .ok none
      else
        let question := jsTrim (extractQuestion msg)
        if question.isEmpty then .ok none
        else
          match queryOpenAI question env oai with
          | .error e => .error e
          | .ok answer => replyToLine ev answer env line

/-- The eligibility decision embedded in handleEvent's early returns
(lines 74-81 of the source): true exactly when processing continues past
the guard. -/
def shouldRespond (ev : LineEvent) (env : Env) : Bool :=
  if ev.etype ≠ "message" then false
  else
    match ev.message with
    | .other => false
    | .text msg =>
      (isDirectChat ev && isDirectChatEnabled env) || isBotMentioned msg env.LINE_BOT_USER_ID

/-- The settled value of one event's task:
handleEvent(event, env).catch(error => console.error(...)). -/
inductive Settled where
  | done (dispatched : Option String) : Settled
  | captured (err : String) : Settled
deriving DecidableEq, Repr

/-- One event task with its rejection captured by .catch. -/
def settleEvent (ev : LineEvent) (env : Env) (oai : OpenAIRequest → FetchResp)
    (line : String → String → LineResp) : Settled :=
  match handleEvent ev env oai line with
  | .ok d => .done d
  | .error e => .captured e

/-- Lines 61-69 of the source after signature verification and parsing of
the events list: every event is mapped to an independent caught task and
the response is 200 "OK" unconditionally. -/
def fetchPost (events : List LineEvent) (env : Env) (oai : OpenAIRequest → FetchResp)
    (line : String → String → LineResp) : (Nat × String) × List Settled :=
  ((200, "OK"), events.map (fun ev => settleEvent ev env oai line))

/-- The parse phase of the fetch handler (lines 53-61): the raw body is
given as the result of JSON.parse, none modelling a parse exception.
On parse success the handler immediately evaluates payload.events.map;
accessing .events on null throws, and calling .map on anything but an
array throws — uncaught in the handler. -/
inductive ParsePhase where
  | badRequest : ParsePhase
  | crash (msg : String) : ParsePhase
  | accepted (events : List Json) : ParsePhase
deriving Repr

/-- Evaluation of payload.events.map as the worker would: an Except error
is an uncaught TypeError. -/
def jsGetEvents (j : Json) : Except String (List Json) :=
  match j with
  | .null => .error "TypeError: cannot read properties of null"
  | .obj fields =>
    match fields.lookup "events" with
    | some (.arr events) => .ok events
    | _ => .error "TypeError: payload.events.map is not a function"
  | _ => .error "TypeError: payload.events.map is not a function"

/-- The parse phase outcome for a given JSON.parse result. -/
def parsePhase (parsed : Option Json) : ParsePhase :=
  match parsed with
  | none => .badRequest
  | some j =>
    match jsGetEvents j with
    | .error e => .crash e
    | .ok events => .accepted events

/-- The HTTP response of the parse phase: 400 for a parse failure, 200 once
the batch is accepted, and no response at all (none) when the handler
dies on an uncaught TypeError. -/
def fetchResponse (parsed : Option Json) : Option (Nat × String) :=
  match parsePhase parsed with
  | .badRequest => some (400, "Bad Request")
  | .crash _ => none
  | .accepted _ => some (200, "OK")

/-- Characters of a text kept or dropped position by position according to a
coverage predicate on positions. -/
def keepUncovered (f : Nat → Bool) : List Char → Nat → List Char
  | [], _ => []
  | c :: cs, p => if f p then keepUncovered f cs (p + 1) else c :: keepUncovered f cs (p + 1)

/-- A position of the raw text lies inside some mention span
[index, index+length). -/
def coveredBy (ms : List Mentionee) (p : Nat) : Bool :=
  ms.any (fun m => decide (m.index ≤ (p : Int)) && decide ((p : Int) < m.index + m.length))

/-- The spec-side description of mention removal: every character whose
position lies in some span [index, index+length) is removed from the
text, all other characters are kept in order. -/
def mentionRemoved (ms : List Mentionee) (t : List Char) : List Char :=
  keepUncovered (coveredBy ms) t 0

/-- Two spans are non-overlapping: their half-open intervals are disjoint. -/
def SpanDisjoint (a b : Mentionee) : Prop :=
  a.index + a.length ≤ b.index ∨ b.index + b.length ≤ a.index

instance : DecidableRel SpanDisjoint := fun a b => by
  unfold SpanDisjoint; infer_instance

/-- Bounds-checked counterpart of jsSlice: the normalized bounds are
computed exactly as in jsSlice and the slice is produced only after the
check that they lie within the string; out-of-range normalized bounds
would yield none. -/
def jsSliceChecked (s : List Char) (start stop : Int) : Option (List Char) :=
  let len : Int := (s.length : Int)
  let st : Int := if start < 0 then max (len + start) 0 else min start len
  let en : Int := if stop < 0 then max (len + stop) 0 else min stop len
  if 0 ≤ st ∧ st ≤ len ∧ 0 ≤ en ∧ en ≤ len then some ((s.take en.toNat).drop st.toNat)
  else none

/-- Bounds-checked counterpart of jsSliceFrom. -/
def jsSliceFromChecked (s : List Char) (start : Int) : Option (List Char) :=
  jsSliceChecked s start (s.length : Int)

/-- One mention-removal step of extractQuestion with both slices
bounds-checked. -/
def checkedStep (text : List Char) (m : Mentionee) : Option (List Char) := do
  let front ← jsSliceChecked text 0 m.index
  let back ← jsSliceFromChecked text (m.index + m.length)
  pure (front ++ back)

/-- extractQuestion with every slice bounds-checked: the computation fails
with none as soon as one slice would read outside the text. -/
def extractQuestionChecked (msg : LineTextMessage) : Option (List Char) :=
  match msg.mention with
  | none => some msg.text
  | some mention =>
    let sorted := List.insertionSort (fun a b => b.index ≤ a.index) mention.mentionees
    (sorted.foldlM checkedStep msg.text).map jsTrim

instance : IsTotal Mentionee (fun a b => b.index ≤ a.index) :=
  ⟨fun a b => le_total b.index a.index⟩

instance : IsTrans Mentionee (fun a b => b.index ≤ a.index) :=
  ⟨fun a b c hab hbc => le_trans hbc hab⟩

/-- Example environment for concrete instantiations: direct chat disabled,
bot user id "B". -/
def exEnv : Env :=
  { OPENAI_API_KEY := "k", OPENAI_MODEL := "m", OPENAI_PROMPT := none
    OPENAI_VECTOR_STORE_ID := none, ENABLE_DIRECT_CHAT_REPLY := some "false"
    LINE_CHANNEL_ACCESS_TOKEN := "t", LINE_CHANNEL_SECRET := "s", LINE_BOT_USER_ID := "B" }

/-- Example group-chat event mentioning the bot, parameterized by reply
token, message id and text. -/
def exGroupEvent (tok : String) (mid : String) (text : List Char) : LineEvent :=
  { etype := "message", replyToken := some tok
    source := { userId := some "U", groupId := some "G", roomId := none }
    timestamp := 0, mode := "active", webhookEventId := mid, deliveryContext := none
    message := .text { id := mid, text := text, mention := some ⟨[⟨0, 2, some "B", none⟩]⟩ } }

/-- Example answer-backend oracle: the question "q2" gets a failed response,
"q1" is answered with "A1", anything else with "A3". -/
def exOai : OpenAIRequest → FetchResp := fun req =>
  if req.question = "q2".toList then ⟨false, 500, Json.null⟩
  else if req.question = "q1".toList then ⟨true, 200, Json.obj [("output_text", Json.str "A1")]⟩
  else ⟨true, 200, Json.obj [("output_text", Json.str "A3")]⟩

/-- Example reply-delivery oracle: every dispatch succeeds. -/
def exLine : String → String → LineResp := fun _ _ => ⟨true, 200⟩

/-- Example batch of three events whose middle event's answer call fails. -/
def exEvents : List LineEvent :=
  [exGroupEvent "tok1" "w1" "@B q1".toList,
   exGroupEvent "tok2" "w2" "@B q2".toList,
   exGroupEvent "tok3" "w3" "@B q3".toList]

/-- Example direct-chat event without any mention. -/
def exDirectEvent : LineEvent :=
  { etype := "message", replyToken := some "tok"
    source := { userId := some "U", groupId := none, roomId := none }
    timestamp := 0, mode := "active", webhookEventId := "w9", deliveryContext := none
    message := .text { id := "w9", text := "hello".toList, mention := none } }

/-! ## Helper lemmas -/

lemma natOr_eq_zero {a b : Nat} : a ||| b = 0 ↔ a = 0 ∧ b = 0 := by
  constructor
  · intro h
    constructor
    · apply Nat.eq_of_testBit_eq
      intro i
      have hbit := congrArg (fun n => Nat.testBit n i) h
      simp only [Nat.testBit_lor] at hbit
      simp only [Nat.zero_testBit] at hbit ⊢
      exact (Bool.or_eq_false_iff.mp hbit).1
    · apply Nat.eq_of_testBit_eq
      intro i
      have hbit := congrArg (fun n => Nat.testBit n i) h
      simp only [Nat.testBit_lor] at hbit
      simp only [Nat.zero_testBit] at hbit ⊢
      exact (Bool.or_eq_false_iff.mp hbit).2
  · rintro ⟨rfl, rfl⟩
    rfl

lemma charXor_eq_zero {a b : Char} : a.toNat ^^^ b.toNat = 0 ↔ a = b := by
  rw [Nat.xor_eq_zero]
  constructor
  · intro h
    exact Char.eq_of_val_eq (UInt32.eq_of_val_eq (Fin.ext h))
  · rintro rfl
    rfl

lemma xorFold_eq_zero (l : List (Char × Char)) :
    ∀ acc : Nat,
      (l.foldl (fun result p => result ||| (p.1.toNat ^^^ p.2.toNat)) acc = 0
        ↔ acc = 0 ∧ ∀ p ∈ l, p.1 = p.2) := by
  induction l with
  | nil => intro acc; simp
  | cons hd tl ih =>
    intro acc
    rw [List.foldl_cons, ih, natOr_eq_zero, charXor_eq_zero]
    constructor
    · rintro ⟨⟨h1, h2⟩, h3⟩
      refine ⟨h1, fun p hp => ?_⟩
      rcases List.mem_cons.mp hp with rfl | hp
      · exact h2
      · exact h3 p hp
    · rintro ⟨h1, h2⟩
      exact ⟨⟨h1, h2 hd (List.mem_cons_self hd tl)⟩,
        fun p hp => h2 p (List.mem_cons_of_mem hd hp)⟩

lemma zip_forall_eq {a : List Char} :
    ∀ {b : List Char}, a.length = b.length → ((∀ p ∈ a.zip b, p.1 = p.2) ↔ a = b) := by
  induction a with
  | nil =>
    intro b hlen
    cases b with
    | nil => simp
    | cons y ys => simp at hlen
  | cons x xs ih =>
    intro b hlen
    cases b with
    | nil => simp at hlen
    | cons y ys =>
      simp only [List.length_cons, Nat.succ.injEq] at hlen
      simp only [List.zip_cons_cons, List.mem_cons, List.cons.injEq]
      constructor
      · intro h
        refine ⟨h (x, y) (Or.inl rfl), (ih hlen).mp fun p hp => h p (Or.inr hp)⟩
      · rintro ⟨rfl, rfl⟩
        intro p hp
        rcases hp with rfl | hp
        · rfl
        · exact ((ih hlen).mpr rfl) p hp

/-! ## C5: timingSafeEqual decides string equality -/

/-- C5: timingSafeEqual returns true for equal strings of equal length,
false for differing strings of equal length, and false for strings of
differing lengths; i.e. timingSafeEqual a b is true exactly when a = b. -/
theorem timingSafeEqual_correct (a b : List Char) : timingSafeEqual a b = true ↔ a = b := by
  unfold timingSafeEqual
  by_cases h : a.length = b.length
  · rw [if_neg (by simpa using h), beq_iff_eq, xorFold_eq_zero]
    simp only [true_and, zip_forall_eq h]
  · rw [if_pos (by simpa using h)]
    simp only [Bool.false_eq_true, false_iff]
    intro hab
    exact h (by rw [hab])

/-! ## C7: the direct-chat flag's truthy set -/

/-- C7: the direct-chat allowance is enabled exactly when the flag value,
after trimming whitespace and lower-casing, is one of "true", "1", "yes",
"on"; any other value, including the empty string and an absent value,
yields disabled. -/
theorem isDirectChatEnabled_iff (env : Env) :
    isDirectChatEnabled env = true ↔
      ∃ s, env.ENABLE_DIRECT_CHAT_REPLY = some s ∧
        (jsStrLower (jsStrTrim s) = "true" ∨ jsStrLower (jsStrTrim s) = "1" ∨
         jsStrLower (jsStrTrim s) = "yes" ∨ jsStrLower (jsStrTrim s) = "on") := by
  unfold isDirectChatEnabled
  cases h : env.ENABLE_DIRECT_CHAT_REPLY with
  | none => simp
  | some flag =>
    simp only [Option.some.injEq]
    by_cases hf : flag = ""
    · subst hf
      rw [if_pos rfl]
      simp only [Bool.false_eq_true, false_iff]
      rintro ⟨s, rfl, hs⟩
      revert hs
      decide
    · rw [if_neg hf]
      simp only [Bool.or_eq_true, beq_iff_eq]
      constructor
      · intro hcase
        exact ⟨flag, rfl, by tauto⟩
      · rintro ⟨s, rfl, hs⟩
        tauto

/-! ## C9: a falsy reply token makes reply delivery a no-op -/

/-- C9: when the reply token is missing or empty, replyToLine skips the
dispatch call and succeeds without dispatching, whatever the reply
oracle would do. -/
theorem replyToLine_skips_falsy_token (ev : LineEvent) (message : String) (env : Env)
    (line : String → String → LineResp) (h : jsTruthy ev.replyToken = false) :
    replyToLine ev message env line = .ok none := by
  unfold replyToLine
  cases htok : ev.replyToken with
  | none => rfl
  | some token =>
    rw [htok] at h
    simp only [jsTruthy, ne_eq, decide_not, Bool.not_eq_false', decide_eq_true_eq] at h
    subst h
    rfl

/-- Witness for C9 at a concrete event carrying an empty reply token. -/
theorem replyToLine_skips_falsy_token_witness :
    replyToLine (exGroupEvent "" "w0" "@B hi".toList) "answer" exEnv exLine = .ok none :=
  replyToLine_skips_falsy_token (exGroupEvent "" "w0" "@B hi".toList) "answer" exEnv exLine
    (by decide)

/-! ## C1: overlapping mention spans are not detected -/

/-- C1: the source does not detect overlapping mention spans.  On the text
"@A hi @B yo" with the overlapping spans [0,2) and [1,3), extraction
silently returns the corrupted text "i @B yo" (the character h of "hi"
is lost) instead of failing with an InvalidMention condition. -/
theorem extractQuestion_overlap_silently_corrupts :
    extractQuestion ⟨"m1", "@A hi @B yo".toList,
        some ⟨[⟨0, 2, some "UA", none⟩, ⟨1, 2, some "UB", none⟩]⟩⟩ = "i @B yo".toList := by
  decide

/-! ## C2: shape-invalid JSON bodies crash instead of yielding 400 -/

/-- C2 counterexample: a signature-passing body that is the valid JSON
object with no events field does not produce the 400 response the claim
requires; the handler dies on an uncaught TypeError instead. -/
theorem fetch_shape_invalid_no_400 :
    parsePhase (some (Json.obj [])) =
      ParsePhase.crash "TypeError: payload.events.map is not a function"
    ∧ fetchResponse (some (Json.obj [])) ≠ some (400, "Bad Request") := by
  exact ⟨rfl, by decide⟩

/-- C2 amended: the handler returns 400 exactly for bodies that fail JSON
parsing; a body that parses but whose events field is missing or not an
array makes the handler crash with an uncaught TypeError, producing no
400 response. -/
theorem fetch_parse_behavior :
    fetchResponse none = some (400, "Bad Request")
    ∧ ∀ j : Json, (∀ events, jsGetEvents j ≠ .ok events) →
        ∃ e, parsePhase (some j) = .crash e ∧ fetchResponse (some j) = none := by
  refine ⟨rfl, fun j hj => ?_⟩
  cases hE : jsGetEvents j with
  | error e =>
    exact ⟨e, by simp [parsePhase, hE], by simp [fetchResponse, parsePhase, hE]⟩
  | ok events =>
    exact absurd hE (hj events)

/-- Witness for C2's amended statement at the empty JSON object. -/
theorem fetch_parse_behavior_witness :
    fetchResponse none = some (400, "Bad Request")
    ∧ ∃ e, parsePhase (some (Json.obj [])) = .crash e
        ∧ fetchResponse (some (Json.obj [])) = none :=
  ⟨fetch_parse_behavior.1,
   fetch_parse_behavior.2 (Json.obj []) (fun _ h => Except.noConfusion h)⟩

/-! ## C10: extraction is total, every slice stays in bounds -/

lemma jsSliceChecked_eq_some (s : List Char) (start stop : Int) :
    jsSliceChecked s start stop = some (jsSlice s start stop) := by
  have hlen : (0 : Int) ≤ (s.length : Int) := Int.natCast_nonneg _
  unfold jsSliceChecked jsSlice
  rw [if_pos]
  constructor
  · split <;> omega
  constructor
  · split <;> omega
  constructor
  · split <;> omega
  · split <;> omega

lemma checkedStep_eq_some (text : List Char) (m : Mentionee) :
    checkedStep text m
      = some (jsSlice text 0 m.index ++ jsSliceFrom text (m.index + m.length)) := by
  unfold checkedStep jsSliceFromChecked jsSliceFrom
  rw [jsSliceChecked_eq_some, jsSliceChecked_eq_some]
  rfl

lemma foldlM_checked (l : List Mentionee) :
    ∀ t : List Char,
      l.foldlM checkedStep t
      = some (l.foldl
          (fun text m => jsSlice text 0 m.index ++ jsSliceFrom text (m.index + m.length)) t) := by
  induction l with
  | nil => intro t; rfl
  | cons hd tl ih =>
    intro t
    simp only [List.foldlM_cons, checkedStep_eq_some, Option.some_bind]
    exact ih _

/-- C10: question extraction is total.  For every message — whatever the
index and length values of its mention entries, negative, overlapping or
out of bounds — the bounds-checked run of the extraction succeeds and
returns exactly the string the source computes, because slice clamps its
normalized bounds into the string. -/
theorem extractQuestion_total (msg : LineTextMessage) :
    extractQuestionChecked msg = some (extractQuestion msg) := by
  cases hm : msg.mention with
  | none => simp [extractQuestionChecked, extractQuestion, hm]
  | some mention => simp [extractQuestionChecked, extractQuestion, hm, foldlM_checked]

/-! ## C3: eligibility policy -/

/-- C3: for a text-message event, eligibility holds whenever the source is a
one-to-one conversation and the direct-chat flag is enabled; otherwise it
holds exactly when the configured bot user id appears among the mention
entries' userId fields; and in particular a one-to-one message with the
flag disabled and no bot mention produces no reply at all. -/
theorem shouldRespond_spec (ev : LineEvent) (env : Env) (msg : LineTextMessage)
    (hmsg : ev.etype = "message") (htext : ev.message = .text msg) :
    ((isDirectChat ev = true ∧ isDirectChatEnabled env = true) → shouldRespond ev env = true)
    ∧ (¬(isDirectChat ev = true ∧ isDirectChatEnabled env = true) →
        (shouldRespond ev env = true ↔
          ∃ m ∈ mentioneesOf msg, m.userId = some env.LINE_BOT_USER_ID))
    ∧ (isDirectChat ev = true → isDirectChatEnabled env = false →
        (∀ m ∈ mentioneesOf msg, m.userId ≠ some env.LINE_BOT_USER_ID) →
        ∀ oai line, handleEvent ev env oai line = .ok none) := by
  have hSR : shouldRespond ev env
      = ((isDirectChat ev && isDirectChatEnabled env)
          || isBotMentioned msg env.LINE_BOT_USER_ID) := by
    unfold shouldRespond
    rw [htext]
    simp [hmsg]
  have hBM : isBotMentioned msg env.LINE_BOT_USER_ID = true
      ↔ ∃ m ∈ mentioneesOf msg, m.userId = some env.LINE_BOT_USER_ID := by
    unfold isBotMentioned mentioneesOf
    simp [List.any_eq_true]
  refine ⟨?_, ?_, ?_⟩
  · rintro ⟨h1, h2⟩
    rw [hSR, h1, h2]
    rfl
  · intro hno
    have hAD : (isDirectChat ev && isDirectChatEnabled env) = false := by
      cases hdc : isDirectChat ev <;> cases hen : isDirectChatEnabled env <;> simp_all
    rw [hSR, hAD, Bool.false_or]
    exact hBM
  · intro hdc hen hnom oai line
    have hbm : isBotMentioned msg env.LINE_BOT_USER_ID = false := by
      rw [Bool.eq_false_iff]
      intro hcon
      rcases hBM.mp hcon with ⟨m, hm, hum⟩
      exact hnom m hm hum
    unfold handleEvent
    rw [htext]
    simp [hmsg, hdc, hen, hbm]

/-- Witness for C3 at a one-to-one event with the flag disabled and no
mention: no reply. -/
theorem shouldRespond_spec_witness :
    handleEvent exDirectEvent exEnv exOai exLine = .ok none := by
  have h := shouldRespond_spec exDirectEvent exEnv
    { id := "w9", text := "hello".toList, mention := none } rfl rfl
  exact h.2.2 (by decide) (by decide) (by decide) exOai exLine

/-! ## C6: per-event failures are isolated and the response is always 200 -/

/-- C6: when some event's outbound work fails, the batch handler still maps
every event to its own caught task — the settled outcome at every index
is exactly the outcome of processing that event alone — and the HTTP
response is still 200 "OK". -/
theorem fetch_isolates_failures (events : List LineEvent) (env : Env)
    (oai : OpenAIRequest → FetchResp) (line : String → String → LineResp)
    (hfail : ∃ ev ∈ events, ∃ err, handleEvent ev env oai line = .error err) :
    (fetchPost events env oai line).1 = (200, "OK")
    ∧ ∀ j : Nat, ((fetchPost events env oai line).2).get? j
        = (events.get? j).map (fun ev => settleEvent ev env oai line) := by
  refine ⟨rfl, fun j => ?_⟩
  simp [fetchPost]

/-- Witness for C6: in the three-event example batch the middle event's
answer call fails, yet its siblings both dispatch their answers and the
response is 200 "OK". -/
theorem fetch_isolates_failures_witness :
    (fetchPost exEvents exEnv exOai exLine).1 = (200, "OK")
    ∧ ((fetchPost exEvents exEnv exOai exLine).2).get? 0 = some (.done (some "A1"))
    ∧ ((fetchPost exEvents exEnv exOai exLine).2).get? 1
        = some (.captured "OpenAI API failed with status 500")
    ∧ ((fetchPost exEvents exEnv exOai exLine).2).get? 2 = some (.done (some "A3")) := by
  have h := fetch_isolates_failures exEvents exEnv exOai exLine
    ⟨exGroupEvent "tok2" "w2" "@B q2".toList, by simp [exEvents],
     "OpenAI API failed with status 500", by rfl⟩
  exact ⟨h.1, (h.2 0).trans (by rfl), (h.2 1).trans (by rfl), (h.2 2).trans (by rfl)⟩

/-! ## C8: answers are truncated before dispatch -/

lemma jsSlice_length_le (s : List Char) (b : Int) (hb : 0 ≤ b) :
    (jsSlice s 0 b).length ≤ b.toNat := by
  unfold jsSlice
  simp only [List.length_drop, List.length_take]
  split_ifs <;> omega

lemma queryOpenAI_tail_length (resp : FetchResp) (answer : String)
    (h : (if (!resp.ok) = true
          then (Except.error ("OpenAI API failed with status " ++ toString resp.status) :
            Except String String)
          else
            match extractOpenAIText resp.data with
            | none => Except.error "OpenAI response is empty"
            | some content =>
              if content = "" then Except.error "OpenAI response is empty"
              else Except.ok (jsStrSlice content 0 1900)) = Except.ok answer) :
    answer.length ≤ 1900 := by
  split at h
  · exact Except.noConfusion h
  · split at h
    · exact Except.noConfusion h
    · split at h
      · exact Except.noConfusion h
      · rw [Except.ok.injEq] at h
        subst h
        exact le_trans (jsSlice_length_le _ 1900 (by norm_num)) (by norm_num)

lemma queryOpenAI_ok_length (question : List Char) (env : Env)
    (oai : OpenAIRequest → FetchResp) (answer : String)
    (h : queryOpenAI question env oai = .ok answer) : answer.length ≤ 1900 := by
  unfold queryOpenAI at h
  exact queryOpenAI_tail_length _ _ h

/-- C8: any text the pipeline hands to the reply dispatcher is the
answer-backend text truncated to at most 1900 characters, under the
2000-character platform cap. -/
theorem handleEvent_truncates (ev : LineEvent) (env : Env)
    (oai : OpenAIRequest → FetchResp) (line : String → String → LineResp) (m : String)
    (h : handleEvent ev env oai line = .ok (some m)) : m.length ≤ 1900 := by
  unfold handleEvent at h
  dsimp only at h
  split at h
  · simp at h
  · split at h
    · simp at h
    · split at h
      · simp at h
      · split at h
        · simp at h
        · split at h
          · exact Except.noConfusion h
          · rename_i answer heq
            unfold replyToLine at h
            dsimp only at h
            split at h
            · simp at h
            · split at h
              · simp at h
              · split at h
                · rw [Except.ok.injEq, Option.some.injEq] at h
                  subst h
                  exact queryOpenAI_ok_length _ _ _ _ heq
                · exact Except.noConfusion h

/-- Witness for C8: the concrete pipeline run dispatching the answer "A1",
whose length is under the cap. -/
theorem handleEvent_truncates_witness :
    handleEvent (exGroupEvent "tok1" "w1" "@B q1".toList) exEnv exOai exLine
      = .ok (some "A1")
    ∧ ("A1" : String).length ≤ 1900 :=
  ⟨by rfl, handleEvent_truncates (exGroupEvent "tok1" "w1" "@B q1".toList) exEnv exOai exLine
    "A1" (by rfl)⟩

/-! ## C4: extraction equals span removal and is order-independent -/

lemma keepUncovered_append (f : Nat → Bool) (A B : List Char) :
    ∀ p : Nat, keepUncovered f (A ++ B) p
      = keepUncovered f A p ++ keepUncovered f B (p + A.length) := by
  induction A with
  | nil => intro p; simp [keepUncovered]
  | cons c cs ih =>
    intro p
    have harith : p + 1 + cs.length = p + (c :: cs).length := by
      simp only [List.length_cons]
      omega
    rw [List.cons_append]
    simp only [keepUncovered]
    rw [ih (p + 1), harith]
    cases hfp : f p <;> simp

lemma keepUncovered_all_true (f : Nat → Bool) :
    ∀ (B : List Char) (p : Nat),
      (∀ k, k < B.length → f (p + k) = true) → keepUncovered f B p = [] := by
  intro B
  induction B with
  | nil => intro p _; rfl
  | cons c cs ih =>
    intro p hall
    have h0 : f p = true := by simpa using hall 0 (by simp)
    simp only [keepUncovered, h0, if_true]
    apply ih
    intro k hk
    have hstep := hall (k + 1) (by simp only [List.length_cons]; omega)
    rwa [show p + (k + 1) = p + 1 + k by omega] at hstep

lemma keepUncovered_all_false (f : Nat → Bool) :
    ∀ (B : List Char) (p : Nat),
      (∀ k, k < B.length → f (p + k) = false) → keepUncovered f B p = B := by
  intro B
  induction B with
  | nil => intro p _; rfl
  | cons c cs ih =>
    intro p hall
    have h0 : f p = false := by simpa using hall 0 (by simp)
    simp only [keepUncovered, h0, if_false, Bool.false_eq_true]
    rw [ih (p + 1)]
    intro k hk
    have hstep := hall (k + 1) (by simp only [List.length_cons]; omega)
    rwa [show p + (k + 1) = p + 1 + k by omega] at hstep

lemma keepUncovered_congr (f g : Nat → Bool) :
    ∀ (A : List Char) (p : Nat),
      (∀ k, k < A.length → f (p + k) = g (p + k)) →
      keepUncovered f A p = keepUncovered g A p := by
  intro A
  induction A with
  | nil => intro p _; rfl
  | cons c cs ih =>
    intro p hall
    have h0 : f p = g p := by simpa using hall 0 (by simp)
    have hrest : ∀ k, k < cs.length → f (p + 1 + k) = g (p + 1 + k) := by
      intro k hk
      have hstep := hall (k + 1) (by simp only [List.length_cons]; omega)
      rwa [show p + (k + 1) = p + 1 + k by omega] at hstep
    simp only [keepUncovered, h0, ih (p + 1) hrest]

lemma coveredBy_cons (m : Mentionee) (ms : List Mentionee) (p : Nat) :
    coveredBy (m :: ms) p
      = ((decide (m.index ≤ (p : Int)) && decide ((p : Int) < m.index + m.length))
          || coveredBy ms p) := by
  simp [coveredBy]

lemma coveredBy_not_mem (ms : List Mentionee) (p : Nat)
    (h : ∀ m ∈ ms, ¬(m.index ≤ (p : Int) ∧ (p : Int) < m.index + m.length)) :
    coveredBy ms p = false := by
  simp only [coveredBy, List.any_eq_false]
  intro m hm
  have := h m hm
  simp only [Bool.and_eq_true, decide_eq_true_eq]
  tauto

lemma keepUncovered_step (m : Mentionee) (rest : List Mentionee) (t : List Char)
    (h0 : 0 ≤ m.index) (hl : 0 ≤ m.length)
    (hend : m.index + m.length ≤ (t.length : Int))
    (hrest : ∀ m2 ∈ rest, 0 ≤ m2.index ∧ m2.index + m2.length ≤ m.index) :
    keepUncovered (coveredBy (m :: rest)) t 0
      = keepUncovered (coveredBy rest) (t.take m.index.toNat) 0
        ++ t.drop (m.index + m.length).toNat := by
  set i := m.index.toNat with hi
  set e := (m.index + m.length).toNat with he
  have hiv : (i : Int) = m.index := by omega
  have hev : (e : Int) = m.index + m.length := by omega
  have hie : i ≤ e := by omega
  have het : e ≤ t.length := by omega
  have hit : i ≤ t.length := le_trans hie het
  have hdecomp : t = t.take i ++ ((t.drop i).take (e - i) ++ t.drop e) := by
    have h2 : (t.drop i).drop (e - i) = t.drop e := by
      rw [List.drop_drop]
      congr 1
      omega
    rw [← h2, List.take_append_drop, List.take_append_drop]
  have hlen1 : (t.take i).length = i := by
    simp only [List.length_take]
    omega
  have hlen2 : ((t.drop i).take (e - i)).length = e - i := by
    simp only [List.length_take, List.length_drop]
    omega
  conv_lhs => rw [hdecomp]
  rw [keepUncovered_append, keepUncovered_append, hlen1, hlen2, Nat.zero_add]
  have hmidpos : i + (e - i) = e := by omega
  rw [hmidpos]
  have piece1 : keepUncovered (coveredBy (m :: rest)) (t.take i) 0
      = keepUncovered (coveredBy rest) (t.take i) 0 := by
    apply keepUncovered_congr
    intro k hk
    rw [hlen1] at hk
    rw [coveredBy_cons]
    have hnot : ¬(m.index ≤ ((0 + k : Nat) : Int)) := by push_cast; omega
    rw [decide_eq_false hnot, Bool.false_and, Bool.false_or]
  have piece2 : keepUncovered (coveredBy (m :: rest)) ((t.drop i).take (e - i)) i = [] := by
    apply keepUncovered_all_true
    intro k hk
    rw [hlen2] at hk
    rw [coveredBy_cons]
    have hge : m.index ≤ ((i + k : Nat) : Int) := by push_cast; omega
    have hlt : ((i + k : Nat) : Int) < m.index + m.length := by push_cast; omega
    rw [decide_eq_true hge, decide_eq_true hlt]
    rfl
  have piece3 : keepUncovered (coveredBy (m :: rest)) (t.drop e) e = t.drop e := by
    apply keepUncovered_all_false
    intro k hk
    apply coveredBy_not_mem
    intro m2 hm2
    rcases List.mem_cons.mp hm2 with rfl | hm2
    · push_cast
      omega
    · rcases hrest m2 hm2 with ⟨hm0, hmend⟩
      push_cast
      omega
  rw [piece1, piece2, piece3, List.nil_append]

lemma jsSlice_zero_eq_take (s : List Char) (b : Int) (h0 : 0 ≤ b)
    (hb : b ≤ (s.length : Int)) : jsSlice s 0 b = s.take b.toNat := by
  unfold jsSlice
  dsimp only
  rw [if_neg (by omega), if_neg (by omega)]
  have h1 : min (0 : Int) ((s.length : Int)) = 0 := by omega
  have h2 : min b ((s.length : Int)) = b := by omega
  rw [h1, h2]
  simp

lemma jsSliceFrom_eq_drop (s : List Char) (a : Int) (h0 : 0 ≤ a)
    (ha : a ≤ (s.length : Int)) : jsSliceFrom s a = s.drop a.toNat := by
  unfold jsSliceFrom jsSlice
  dsimp only
  rw [if_neg (by omega), if_neg (by omega)]
  have h1 : min a ((s.length : Int)) = a := by omega
  have h2 : min ((s.length : Int)) ((s.length : Int)) = (s.length : Int) := by omega
  rw [h1, h2]
  have h3 : ((s.length : Int)).toNat = s.length := by omega
  rw [h3, List.take_length]

lemma removeFold_append (spans : List Mentionee) :
    ∀ A B : List Char,
      spans.Pairwise (fun a b => b.index + b.length ≤ a.index) →
      (∀ m ∈ spans, 0 ≤ m.index ∧ 0 ≤ m.length ∧ m.index + m.length ≤ (A.length : Int)) →
      spans.foldl
          (fun text m => jsSlice text 0 m.index ++ jsSliceFrom text (m.index + m.length))
          (A ++ B)
        = spans.foldl
            (fun text m => jsSlice text 0 m.index ++ jsSliceFrom text (m.index + m.length))
            A ++ B := by
  induction spans with
  | nil => intro A B _ _; rfl
  | cons m rest ih =>
    intro A B hpair hb
    obtain ⟨h0, hl, hend⟩ := hb m (List.mem_cons_self m rest)
    have hpc := List.pairwise_cons.mp hpair
    have hlenAB : ((A ++ B).length : Int) = (A.length : Int) + (B.length : Int) := by
      push_cast [List.length_append]
      ring
    have hstep : jsSlice (A ++ B) 0 m.index ++ jsSliceFrom (A ++ B) (m.index + m.length)
        = (jsSlice A 0 m.index ++ jsSliceFrom A (m.index + m.length)) ++ B := by
      rw [jsSlice_zero_eq_take _ _ h0 (by omega),
          jsSliceFrom_eq_drop _ _ (by omega) (by omega),
          jsSlice_zero_eq_take _ _ h0 (by omega),
          jsSliceFrom_eq_drop _ _ (by omega) hend,
          List.take_append_of_le_length (by omega),
          List.drop_append_of_le_length (by omega),
          List.append_assoc]
    rw [List.foldl_cons, List.foldl_cons, hstep]
    apply ih
    · exact hpc.2
    · intro m2 hm2
      obtain ⟨h20, h2l, _⟩ := hb m2 (List.mem_cons_of_mem m hm2)
      have h2end := hpc.1 m2 hm2
      have hlen' : ((jsSlice A 0 m.index ++ jsSliceFrom A (m.index + m.length)).length : Int)
          = m.index + ((A.length : Int) - (m.index + m.length)) := by
        rw [jsSlice_zero_eq_take _ _ h0 (by omega),
            jsSliceFrom_eq_drop _ _ (by omega) hend]
        push_cast [List.length_append, List.length_take, List.length_drop]
        omega
      refine ⟨h20, h2l, ?_⟩
      rw [hlen']
      omega

lemma removeFold_eq_keepUncovered (spans : List Mentionee) :
    ∀ t : List Char,
      spans.Pairwise (fun a b => b.index + b.length ≤ a.index) →
      (∀ m ∈ spans, 0 ≤ m.index ∧ 0 ≤ m.length ∧ m.index + m.length ≤ (t.length : Int)) →
      spans.foldl
          (fun text m => jsSlice text 0 m.index ++ jsSliceFrom text (m.index + m.length)) t
        = keepUncovered (coveredBy spans) t 0 := by
  induction spans with
  | nil =>
    intro t _ _
    symm
    apply keepUncovered_all_false
    intro k hk
    rfl
  | cons m rest ih =>
    intro t hpair hb
    obtain ⟨h0, hl, hend⟩ := hb m (List.mem_cons_self m rest)
    have hpc := List.pairwise_cons.mp hpair
    have htake_len : ((t.take m.index.toNat).length : Int) = m.index := by
      push_cast [List.length_take]
      omega
    have hrest2 : ∀ m2 ∈ rest,
        0 ≤ m2.index ∧ 0 ≤ m2.length
          ∧ m2.index + m2.length ≤ (((t.take m.index.toNat).length : Nat) : Int) := by
      intro m2 hm2
      obtain ⟨h20, h2l, _⟩ := hb m2 (List.mem_cons_of_mem m hm2)
      have h2end := hpc.1 m2 hm2
      rw [htake_len]
      exact ⟨h20, h2l, h2end⟩
    rw [List.foldl_cons,
        jsSlice_zero_eq_take _ _ h0 (by omega),
        jsSliceFrom_eq_drop _ _ (by omega) hend,
        removeFold_append rest _ _ hpc.2 hrest2,
        ih _ hpc.2 hrest2]
    exact (keepUncovered_step m rest t h0 hl hend
      (fun m2 hm2 => ⟨(hb m2 (List.mem_cons_of_mem m hm2)).1, hpc.1 m2 hm2⟩)).symm

lemma coveredBy_perm {l1 l2 : List Mentionee} (h : l1.Perm l2) :
    coveredBy l1 = coveredBy l2 := by
  funext p
  rw [Bool.eq_iff_iff]
  simp only [coveredBy, List.any_eq_true]
  constructor
  · rintro ⟨m, hm, hp⟩
    exact ⟨m, h.mem_iff.mp hm, hp⟩
  · rintro ⟨m, hm, hp⟩
    exact ⟨m, h.mem_iff.mpr hm, hp⟩

lemma extractQuestion_eq_mentionRemoved (mid : String) (t : List Char) (ms : List Mentionee)
    (hdisj : ms.Pairwise SpanDisjoint)
    (hb : ∀ m ∈ ms, 0 ≤ m.index ∧ 1 ≤ m.length ∧ m.index + m.length ≤ (t.length : Int)) :
    extractQuestion ⟨mid, t, some ⟨ms⟩⟩ = jsTrim (mentionRemoved ms t) := by
  unfold extractQuestion mentionRemoved
  dsimp only
  have hperm : (List.insertionSort (fun a b => b.index ≤ a.index) ms).Perm ms :=
    List.perm_insertionSort _ ms
  have hsorted : (List.insertionSort (fun a b => b.index ≤ a.index) ms).Pairwise
      (fun a b => b.index ≤ a.index) := List.sorted_insertionSort _ ms
  have hbS : ∀ m ∈ List.insertionSort (fun a b => b.index ≤ a.index) ms,
      0 ≤ m.index ∧ 1 ≤ m.length ∧ m.index + m.length ≤ (t.length : Int) :=
    fun m hm => hb m (hperm.mem_iff.mp hm)
  have hdisjS : (List.insertionSort (fun a b => b.index ≤ a.index) ms).Pairwise SpanDisjoint := by
    refine (List.Perm.pairwise_iff (fun hab => hab.symm) hperm).mpr hdisj
  have hchain : (List.insertionSort (fun a b => b.index ≤ a.index) ms).Pairwise
      (fun a b => b.index + b.length ≤ a.index) := by
    refine List.Pairwise.imp_of_mem ?_ (hsorted.and hdisjS)
    intro a b ha hb2 hrel
    obtain ⟨hle, hdis⟩ := hrel
    obtain ⟨_, hal, _⟩ := hbS a ha
    rcases hdis with hcase | hcase
    · omega
    · exact hcase
  rw [removeFold_eq_keepUncovered _ t hchain
      (fun m hm => ⟨(hbS m hm).1, by have := (hbS m hm).2.1; omega, (hbS m hm).2.2⟩),
      coveredBy_perm hperm]

/-- C4: for a text message whose mention spans are pairwise non-overlapping
and in bounds, extraction returns the text with every span [index,
index+length) removed, trimmed of surrounding whitespace, and the result
does not depend on the original order of the mention entries. -/
theorem extractQuestion_spec (mid : String) (t : List Char) (ms : List Mentionee)
    (hdisj : ms.Pairwise SpanDisjoint)
    (hb : ∀ m ∈ ms, 0 ≤ m.index ∧ 1 ≤ m.length ∧ m.index + m.length ≤ (t.length : Int)) :
    extractQuestion ⟨mid, t, some ⟨ms⟩⟩ = jsTrim (mentionRemoved ms t)
    ∧ ∀ ms2 : List Mentionee, ms.Perm ms2 →
        extractQuestion ⟨mid, t, some ⟨ms2⟩⟩ = extractQuestion ⟨mid, t, some ⟨ms⟩⟩ := by
  refine ⟨extractQuestion_eq_mentionRemoved mid t ms hdisj hb, ?_⟩
  intro ms2 hp
  have hdisj2 : ms2.Pairwise SpanDisjoint :=
    (List.Perm.pairwise_iff (fun hab => hab.symm) hp).mp hdisj
  have hb2 : ∀ m ∈ ms2, 0 ≤ m.index ∧ 1 ≤ m.length ∧ m.index + m.length ≤ (t.length : Int) :=
    fun m hm => hb m (hp.mem_iff.mpr hm)
  rw [extractQuestion_eq_mentionRemoved mid t ms2 hdisj2 hb2,
      extractQuestion_eq_mentionRemoved mid t ms hdisj hb]
  unfold mentionRemoved
  rw [coveredBy_perm hp]

/-- Witness for C4: the spec's example, the text "@Bot hello" with the span
at index 0 of length 4 extracts to exactly "hello". -/
theorem extractQuestion_spec_witness :
    extractQuestion ⟨"m0", "@Bot hello".toList, some ⟨[⟨0, 4, some "B", none⟩]⟩⟩
      = "hello".toList := by
  have h := (extractQuestion_spec "m0" "@Bot hello".toList [⟨0, 4, some "B", none⟩]
    (by decide) (by decide)).1
  exact h.trans (by decide)
